import Mathlib

/-!
Verification of the particle simulation core in `src/particles/main.cpp`.

Positions, velocities and radii are modelled over `ℚ` (exact arithmetic in
place of IEEE floats).  C++ `static_cast<int>` on a non-integral value
truncates toward zero, and C++ `/` on `int` is truncating division, which is
`Int.tdiv` in Lean.
-/

/-- Truncation toward zero, i.e. `static_cast<int>(q)` for a rational `q`. -/
def truncInt (q : ℚ) : ℤ := if 0 ≤ q then ⌊q⌋ else -⌊-q⌋

/-- One axis of `computeCellKey` (main.cpp:39-41):
`static_cast<int>(x) / CELL_SIZE` with C++ truncating integer division. -/
def cellCoord (c : ℤ) (q : ℚ) : ℤ := (truncInt q).tdiv c

/-- The function `computeCellKey` (main.cpp:39-41), cell size as a parameter. -/
def computeCellKeyC (c : ℤ) (x y : ℚ) : ℤ × ℤ := (cellCoord c x, cellCoord c y)

/-- The constant `CELL_SIZE` from main.cpp:21. -/
def CELL_SIZE : ℤ := 10

/-- The function `computeCellKey` exactly as in main.cpp:39-41 (cell size 10). -/
def computeCellKey (x y : ℚ) : ℤ × ℤ := computeCellKeyC CELL_SIZE x y

/-! ## The spatial hash grid (main.cpp:53, 118-124)

The `std::unordered_map<CellKey, std::vector<int>>` is modelled as an
association list from cell keys to buckets; `grid[key].push_back(i)`
appends to the bucket of `key`, creating it if absent. -/

/-- Insertion `grid[key].push_back(i)` (main.cpp:123). -/
def gridInsert : List ((ℤ × ℤ) × List ℕ) → ℤ × ℤ → ℕ → List ((ℤ × ℤ) × List ℕ)
  | [], k, i => [(k, [i])]
  | (k', l) :: t, k, i =>
    if k' = k then (k', l ++ [i]) :: t else (k', l) :: gridInsert t k i

/-- Bucket lookup `grid[key]` (empty if the key is absent). -/
def bucketOf : List ((ℤ × ℤ) × List ℕ) → ℤ × ℤ → List ℕ
  | [], _ => []
  | (k', l) :: t, k => if k' = k then l else bucketOf t k

/-- Key presence `grid.count(key)` as a Boolean (main.cpp:188). -/
def hasKey : List ((ℤ × ℤ) × List ℕ) → ℤ × ℤ → Bool
  | [], _ => false
  | (k', _) :: t, k => k' = k || hasKey t k

/-- The cell key of particle `i`, computed from its position
(main.cpp:120-122). -/
def keyAt (c : ℤ) (pos : List (ℚ × ℚ)) (i : ℕ) : ℤ × ℤ :=
  computeCellKeyC c (pos.getD i (0, 0)).1 (pos.getD i (0, 0)).2

/-- The per-frame grid rebuild (main.cpp:118-124): insert every particle
index in order. -/
def buildGrid (c : ℤ) (pos : List (ℚ × ℚ)) : List ((ℤ × ℤ) × List ℕ) :=
  (List.range pos.length).foldl (fun g i => gridInsert g (keyAt c pos i) i) []

/-! ## Pair enumeration of the resolver's grid scan (main.cpp:135-232)

The intra-cell pass iterates ordered positions `a < b` within one bucket
(main.cpp:141-144); the inter-cell pass iterates the 8 neighbor offsets in
the order of the two nested `dx`/`dy` loops, guarded by `grid.count` and by
`i < j` (main.cpp:184-193). -/

/-- Pairs `(cellParticles[a], cellParticles[b])` with `a < b`
(main.cpp:141-144). -/
def intraPairs : List ℕ → List (ℕ × ℕ)
  | [] => []
  | i :: rest => rest.map (fun j => (i, j)) ++ intraPairs rest

/-- Pairs `(i, j)` with `i` in the current cell, `j` in a neighbor cell,
restricted to `i < j` (main.cpp:190-193). -/
def interPairs (cur nb : List ℕ) : List (ℕ × ℕ) :=
  cur.flatMap (fun i => (nb.filter (fun j => decide (i < j))).map (fun j => (i, j)))

/-- The 8 neighbor offsets in loop order, skipping `(0,0)`
(main.cpp:184-186). -/
def neighborOffsets : List (ℤ × ℤ) :=
  [(-1, -1), (-1, 0), (-1, 1), (0, -1), (0, 1), (1, -1), (1, 0), (1, 1)]

/-- All pairs tested while processing one cell: the intra-cell pass followed
by the inter-cell pass over existing neighbor buckets (main.cpp:136-232). -/
def cellScanPairs (g : List ((ℤ × ℤ) × List ℕ)) (k : ℤ × ℤ) : List (ℕ × ℕ) :=
  intraPairs (bucketOf g k) ++
    neighborOffsets.flatMap (fun d =>
      if hasKey g (k.1 + d.1, k.2 + d.2) then
        interPairs (bucketOf g k) (bucketOf g (k.1 + d.1, k.2 + d.2))
      else [])

/-- All pairs tested by a full scan over the occupied cells (the `CellKeys`
list, main.cpp:126-129, covered completely by the thread ranges). -/
def scanPairs (g : List ((ℤ × ℤ) × List ℕ)) : List (ℕ × ℕ) :=
  (g.map Prod.fst).flatMap (cellScanPairs g)

/-! ## Particle state and the collision test (main.cpp:146-155) -/

/-- The per-particle state: structure-of-arrays view of the `positions`,
`velocities`, `accelerations` matrices plus each particle's radius. -/
structure World where
  pos : List (ℚ × ℚ)
  vel : List (ℚ × ℚ)
  acc : List (ℚ × ℚ)
  radius : List ℚ

/-- Squared center distance `dx*dx + dy*dy` for a pair (main.cpp:150-152). -/
def dist2 (w : World) (i j : ℕ) : ℚ :=
  let p1 := w.pos.getD i (0, 0)
  let p2 := w.pos.getD j (0, 0)
  (p2.1 - p1.1) * (p2.1 - p1.1) + (p2.2 - p1.2) * (p2.2 - p1.2)

/-- The sum `particles[i]->radius + particles[j]->radius` (main.cpp:153). -/
def radiusSum (w : World) (i j : ℕ) : ℚ :=
  w.radius.getD i 0 + w.radius.getD j 0

/-- The collision test `dist2 < radiusSum * radiusSum` (main.cpp:155). -/
def collidesB (w : World) (i j : ℕ) : Bool :=
  decide (dist2 w i j < radiusSum w i j * radiusSum w i j)

/-- The grid built from the world's positions (main.cpp:118-124). -/
def worldGrid (c : ℤ) (w : World) : List ((ℤ × ℤ) × List ℕ) :=
  buildGrid c w.pos

/-- The set of pairs that pass the collision test somewhere in the grid
scan (intra-cell or inter-cell pass). -/
def testedCollidingPairs (c : ℤ) (w : World) : List (ℕ × ℕ) :=
  (scanPairs (worldGrid c w)).filter (fun p => collidesB w p.1 p.2)

/-- The brute-force all-pairs oracle: every `i < j` among all particles,
filtered by the same distance test. -/
def bruteCollidingPairs (w : World) : List (ℕ × ℕ) :=
  (intraPairs (List.range w.pos.length)).filter (fun p => collidesB w p.1 p.2)

/-! ## Collision resolution dynamics (main.cpp:155-178, 203-225)

`std::sqrt` is modelled by an arbitrary function parameter `sqrtFn`; every
concrete use below fixes its value only at the points where the code takes
an exact rational square root. -/

/-- Relative velocity along the normal (main.cpp:170):
`(v1x - v2x) * nx + (v1y - v2y) * ny`. -/
def relVelN (n v1 v2 : ℚ × ℚ) : ℚ :=
  (v1.1 - v2.1) * n.1 + (v1.2 - v2.2) * n.2

/-- The symmetric impulse application (main.cpp:170-178): particle `i`
loses `impulse * n * (1 - ENTROPY)`, particle `j` gains the same. -/
def applyImpulse (E : ℚ) (n v1 v2 : ℚ × ℚ) : (ℚ × ℚ) × (ℚ × ℚ) :=
  let impulse := relVelN n v1 v2
  ((v1.1 - impulse * n.1 * (1 - E), v1.2 - impulse * n.2 * (1 - E)),
   (v2.1 + impulse * n.1 * (1 - E), v2.2 + impulse * n.2 * (1 - E)))

/-- The distance/separation actually used (main.cpp:156-161): `sqrt` of the
squared distance, with the degenerate zero-distance substitution
`(0.1, radiusSum, 0)`.  Returns `(distance, dx, dy)`. -/
def collisionGeom (sqrtFn : ℚ → ℚ) (dx dy d2 rs : ℚ) : ℚ × ℚ × ℚ :=
  let distance := sqrtFn d2
  if distance = 0 then (1 / 10, rs, 0) else (distance, dx, dy)

/-- One pair resolution (main.cpp:146-179): test, normal, impulse, and the
in-place velocity writes. -/
def resolvePair (sqrtFn : ℚ → ℚ) (E : ℚ) (w : World) (i j : ℕ) : World :=
  if collidesB w i j then
    let p1 := w.pos.getD i (0, 0)
    let p2 := w.pos.getD j (0, 0)
    let g := collisionGeom sqrtFn (p2.1 - p1.1) (p2.2 - p1.2)
      (dist2 w i j) (radiusSum w i j)
    let n : ℚ × ℚ := (g.2.1 / g.1, g.2.2 / g.1)
    let v1 := w.vel.getD i (0, 0)
    let v2 := w.vel.getD j (0, 0)
    let r := applyImpulse E n v1 v2
    { w with vel := (w.vel.set i r.1).set j r.2 }
  else w

/-- A full sequential resolver pass: every occupied cell's intra-cell and
inter-cell pairs in scan order, applied to the running state.  Pair
enumeration depends only on the grid, which is fixed during the pass, and
on positions, which the pass never writes. -/
def resolvePass (sqrtFn : ℚ → ℚ) (E : ℚ) (c : ℤ) (w : World) : World :=
  (scanPairs (worldGrid c w)).foldl (fun w p => resolvePair sqrtFn E w p.1 p.2) w

/-! ## Integrator (main.cpp:104-109)

The two `cblas_daxpy` calls over the flat row-major matrix data:
`positions += dt * velocities` first, then `velocities += dt * accelerations`. -/

/-- The bulk update `cblas_daxpy`: `y := a*x + y` elementwise over flat buffers. -/
def daxpy (a : ℚ) (x y : List ℚ) : List ℚ :=
  List.zipWith (fun xi yi => yi + a * xi) x y

/-- Flat row-major contents of the three matrices (main.cpp:48-50). -/
structure SimState where
  positions : List ℚ
  velocities : List ℚ
  accelerations : List ℚ

/-- First daxpy call (main.cpp:107). -/
def stepPositions (dt : ℚ) (s : SimState) : SimState :=
  { s with positions := daxpy dt s.velocities s.positions }

/-- Second daxpy call (main.cpp:109). -/
def stepVelocities (dt : ℚ) (s : SimState) : SimState :=
  { s with velocities := daxpy dt s.accelerations s.velocities }

/-- The frame's `dt` as handed to the integrator (main.cpp:104): the clock
value is used as-is, with no clamping and no NaN or sign check. -/
def frameDt (dt : ℚ) : ℚ := dt

/-- One frame's integration in source order: positions first, velocities
second (main.cpp:104-109). -/
def integrateFrame (dtRaw : ℚ) (s : SimState) : SimState :=
  stepVelocities (frameDt dtRaw) (stepPositions (frameDt dtRaw) s)

/-- Modelled from the spec: "elapsed time `dt` for the frame (clamped to be
non-negative)" — the spec's claimed clamp, absent from the code. -/
def clampDtSpec (dt : ℚ) : ℚ := max dt 0

/-! ## Work partition across worker threads (main.cpp:130-133, 236-242) -/

/-- The quotient `cellsPerThread = totalCells / numThreads` (main.cpp:131). -/
def cellsPerThread (M T : ℕ) : ℕ := M / T

/-- The remainder `extraCells = totalCells % numThreads` (main.cpp:132). -/
def extraCells (M T : ℕ) : ℕ := M % T

/-- The cell count assigned to thread `t` (main.cpp:238). -/
def chunkCount (M T t : ℕ) : ℕ :=
  cellsPerThread M T + if t < extraCells M T then 1 else 0

/-- The value of `currentIndex` when thread `t` is spawned (main.cpp:133, 237-241). -/
def chunkStart (M T : ℕ) : ℕ → ℕ
  | 0 => 0
  | t + 1 => chunkStart M T t + chunkCount M T t

/-- Modelled from the spec: "CellKey: pair of integers
`(cx, cy) = (floor(x / cellSize), floor(y / cellSize))`". -/
def cellKeySpec (c : ℤ) (x y : ℚ) : ℤ × ℤ := (⌊x / (c : ℚ)⌋, ⌊y / (c : ℚ)⌋)

/-- The spec's concrete scenario: two unit-radius particles at `(0,0)` and
`(1.5,0)` with velocities `(1,0)` and `(-1,0)`. -/
def wScenario : World :=
  ⟨[(0, 0), (3/2, 0)], [(1, 0), (-1, 0)], [(0, 0), (0, 0)], [1, 1]⟩

/-- The flat matrix state of the concrete scenario (row-major, two rows of
dimension 2), used for the `dt = 0` integration step. -/
def sScenario : SimState := ⟨[0, 0, 3/2, 0], [1, 0, -1, 0], [0, 0, 0, 0]⟩

/-- Two particles at identical coordinates. -/
def wDegen : World :=
  ⟨[(1, 1), (1, 1)], [(2, 0), (0, 0)], [(0, 0), (0, 0)], [1, 1]⟩

/-! ## Theorems -/

theorem truncInt_of_nonneg {q : ℚ} (h : 0 ≤ q) : truncInt q = ⌊q⌋ := by
  simp [truncInt, h]

theorem truncInt_of_neg {q : ℚ} (h : q < 0) : truncInt q = ⌈q⌉ := by
  rw [truncInt, if_neg (not_le.mpr h), Int.floor_neg, neg_neg]

theorem cellCoord_of_nonneg {c : ℤ} (hc : 0 < c) {q : ℚ} (h : 0 ≤ q) :
    cellCoord c q = ⌊q / (c : ℚ)⌋ := by
  have hfq : (0 : ℤ) ≤ ⌊q⌋ := Int.floor_nonneg.mpr h
  have hcq : (0 : ℚ) < (c : ℚ) := by exact_mod_cast hc
  rw [cellCoord, truncInt_of_nonneg h, Int.tdiv_eq_ediv hfq hc.le]
  symm
  rw [Int.floor_eq_iff]
  have hlow : ((⌊q⌋ / c * c : ℤ) : ℚ) ≤ q :=
    le_trans (by exact_mod_cast Int.ediv_mul_le ⌊q⌋ hc.ne.symm) (Int.floor_le q)
  have hhigh : q < ((⌊q⌋ / c + 1) * c : ℤ) := by
    have h2 : (⌊q⌋ : ℤ) + 1 ≤ (⌊q⌋ / c + 1) * c := Int.lt_ediv_add_one_mul_self ⌊q⌋ hc
    have h3 : ((⌊q⌋ : ℤ) : ℚ) + 1 ≤ (((⌊q⌋ / c + 1) * c : ℤ) : ℚ) := by exact_mod_cast h2
    linarith [Int.lt_floor_add_one q]
  constructor
  · rw [le_div_iff₀ hcq]
    push_cast at hlow ⊢
    linarith
  · rw [div_lt_iff₀ hcq]
    push_cast at hhigh ⊢
    linarith

theorem cellCoord_of_neg {c : ℤ} (hc : 0 < c) {q : ℚ} (h : q < 0) :
    cellCoord c q = ⌈q / (c : ℚ)⌉ := by
  have hnq : (0 : ℚ) ≤ -q := by linarith
  have : cellCoord c (-q) = ⌊(-q) / (c : ℚ)⌋ := cellCoord_of_nonneg hc hnq
  rw [cellCoord, truncInt_of_neg h] at *
  have hceil : ⌈q⌉ = -⌊-q⌋ := by rw [Int.floor_neg]; ring
  rw [hceil, Int.neg_tdiv]
  rw [truncInt_of_nonneg hnq] at this
  rw [this, neg_div, Int.floor_neg]
  ring

theorem cellCoord_mono {c : ℤ} (hc : 0 < c) {x y : ℚ} (h : x ≤ y) :
    cellCoord c x ≤ cellCoord c y := by
  have hcq : (0 : ℚ) < (c : ℚ) := by exact_mod_cast hc
  have hdiv : x / (c : ℚ) ≤ y / (c : ℚ) := by gcongr
  rcases le_or_lt 0 x with hx | hx
  · rw [cellCoord_of_nonneg hc hx, cellCoord_of_nonneg hc (le_trans hx h)]
    exact Int.floor_le_floor hdiv
  · rcases le_or_lt 0 y with hy | hy
    · rw [cellCoord_of_neg hc hx, cellCoord_of_nonneg hc hy]
      have h1 : cellCoord c x ≤ 0 := by
        rw [cellCoord_of_neg hc hx]
        exact Int.ceil_le.mpr (by
          rw [div_le_iff₀ hcq]
          push_cast
          linarith)
      have h2 : (0 : ℤ) ≤ ⌊y / (c : ℚ)⌋ :=
        Int.floor_nonneg.mpr (div_nonneg hy hcq.le)
      rw [cellCoord_of_neg hc hx] at h1
      omega
    · rw [cellCoord_of_neg hc hx, cellCoord_of_neg hc hy]
      exact Int.ceil_le_ceil hdiv

theorem cellCoord_step {c : ℤ} (hc : 0 < c) {x y : ℚ} (hxy : x ≤ y)
    (h : y < x + c) : cellCoord c y ≤ cellCoord c x + 1 := by
  have hcq : (0 : ℚ) < (c : ℚ) := by exact_mod_cast hc
  have hdiv : y / (c : ℚ) < x / (c : ℚ) + 1 := by
    rw [div_lt_iff₀ hcq, add_mul, one_mul]
    calc y < x + c := h
      _ ≤ x / (c : ℚ) * c + c := by
          rw [div_mul_cancel₀ _ hcq.ne.symm]
  rcases le_or_lt 0 x with hx | hx
  · have hy : 0 ≤ y := le_trans hx hxy
    rw [cellCoord_of_nonneg hc hx, cellCoord_of_nonneg hc hy]
    have : ⌊y / (c : ℚ)⌋ < ⌊x / (c : ℚ)⌋ + 2 := by
      rw [Int.floor_lt]
      push_cast
      linarith [Int.lt_floor_add_one (x / (c : ℚ))]
    omega
  · rcases le_or_lt 0 y with hy | hy
    · rw [cellCoord_of_nonneg hc hy, cellCoord_of_neg hc hx]
      have h1 : ⌊y / (c : ℚ)⌋ ≤ 0 := by
        have : ⌊y / (c : ℚ)⌋ < 1 := by
          rw [Int.floor_lt, div_lt_iff₀ hcq]
          push_cast
          linarith
        omega
      have h2 : (-1 : ℤ) ≤ ⌈x / (c : ℚ)⌉ := by
        rw [Int.le_ceil_iff, lt_div_iff₀ hcq]
        push_cast
        linarith
      omega
    · rw [cellCoord_of_neg hc hx, cellCoord_of_neg hc hy]
      have : ⌈y / (c : ℚ)⌉ ≤ ⌈x / (c : ℚ)⌉ + 1 := by
        rw [Int.ceil_le]
        push_cast
        linarith [Int.le_ceil (x / (c : ℚ))]
      exact this

theorem cellCoord_adjacent {c : ℤ} (hc : 0 < c) {x y : ℚ}
    (h : |x - y| < (c : ℚ)) : |cellCoord c x - cellCoord c y| ≤ 1 := by
  rw [abs_sub_lt_iff] at h
  rw [abs_le]
  rcases le_total x y with hxy | hxy
  · have h1 := cellCoord_mono hc hxy
    have h2 := cellCoord_step hc hxy (by linarith [h.2])
    omega
  · have h1 := cellCoord_mono hc hxy
    have h2 := cellCoord_step hc hxy (by linarith [h.1])
    omega

theorem bucketOf_gridInsert (g : List ((ℤ × ℤ) × List ℕ)) (k k' : ℤ × ℤ)
    (i : ℕ) : bucketOf (gridInsert g k i) k' =
      if k' = k then bucketOf g k ++ [i] else bucketOf g k' := by
  induction g with
  | nil =>
    by_cases hk : k' = k
    · subst hk
      simp [gridInsert, bucketOf]
    · simp [gridInsert, bucketOf, hk, Ne.symm hk]
  | cons hd t ih =>
    obtain ⟨k0, l0⟩ := hd
    by_cases h0 : k0 = k
    · subst h0
      by_cases hk : k' = k0
      · subst hk
        simp [gridInsert, bucketOf]
      · simp [gridInsert, bucketOf, hk, Ne.symm hk]
    · by_cases hk : k0 = k'
      · subst hk
        simp [gridInsert, h0, bucketOf]
      · simp [gridInsert, h0, bucketOf, hk, ih]

theorem hasKey_gridInsert (g : List ((ℤ × ℤ) × List ℕ)) (k k' : ℤ × ℤ)
    (i : ℕ) : hasKey (gridInsert g k i) k' = (hasKey g k' || decide (k' = k)) := by
  induction g with
  | nil =>
    by_cases hk : k = k'
    · subst hk
      simp [gridInsert, hasKey]
    · simp [gridInsert, hasKey, hk, Ne.symm hk]
  | cons hd t ih =>
    obtain ⟨k0, l0⟩ := hd
    by_cases h0 : k0 = k
    · subst h0
      by_cases hk : k0 = k'
      · subst hk
        simp [gridInsert, hasKey]
      · simp [gridInsert, hasKey, hk, Ne.symm hk]
    · simp [gridInsert, h0, hasKey, ih, Bool.or_assoc]

theorem bucketOf_foldl (f : ℕ → ℤ × ℤ) (is : List ℕ)
    (g : List ((ℤ × ℤ) × List ℕ)) (k : ℤ × ℤ) :
    bucketOf (is.foldl (fun g i => gridInsert g (f i) i) g) k =
      bucketOf g k ++ is.filter (fun i => decide (f i = k)) := by
  induction is generalizing g with
  | nil => simp
  | cons i t ih =>
    simp only [List.foldl_cons, ih, bucketOf_gridInsert]
    by_cases hk : k = f i
    · simp [hk, List.filter_cons, eq_comm]
    · have : ¬ f i = k := fun h => hk h.symm
      simp [hk, List.filter_cons, this]

theorem bucketOf_buildGrid (c : ℤ) (pos : List (ℚ × ℚ)) (k : ℤ × ℤ) :
    bucketOf (buildGrid c pos) k =
      (List.range pos.length).filter (fun i => decide (keyAt c pos i = k)) := by
  rw [buildGrid, bucketOf_foldl]
  simp [bucketOf]

theorem hasKey_foldl (f : ℕ → ℤ × ℤ) (is : List ℕ)
    (g : List ((ℤ × ℤ) × List ℕ)) (k : ℤ × ℤ) :
    hasKey (is.foldl (fun g i => gridInsert g (f i) i) g) k =
      (hasKey g k || is.any (fun i => decide (k = f i))) := by
  induction is generalizing g with
  | nil => simp
  | cons i t ih =>
    simp only [List.foldl_cons, ih, hasKey_gridInsert, List.any_cons]
    by_cases hk : k = f i <;> simp [hk, Bool.or_assoc, Bool.or_comm]

theorem hasKey_buildGrid (c : ℤ) (pos : List (ℚ × ℚ)) (k : ℤ × ℤ) :
    hasKey (buildGrid c pos) k = true ↔
      ∃ i, i < pos.length ∧ keyAt c pos i = k := by
  rw [buildGrid, hasKey_foldl]
  simp only [hasKey, Bool.false_or, List.any_eq_true, List.mem_range,
    decide_eq_true_eq]
  constructor
  · rintro ⟨i, hi, hk⟩
    exact ⟨i, hi, hk.symm⟩
  · rintro ⟨i, hi, hk⟩
    exact ⟨i, hi, hk.symm⟩

theorem mem_keys_iff_hasKey (g : List ((ℤ × ℤ) × List ℕ)) (k : ℤ × ℤ) :
    k ∈ g.map Prod.fst ↔ hasKey g k = true := by
  induction g with
  | nil => simp [hasKey]
  | cons hd t ih =>
    obtain ⟨k0, l0⟩ := hd
    by_cases hk : k0 = k
    · subst hk
      simp [hasKey]
    · simp [hasKey, hk, Ne.symm hk, ih]

theorem mem_intraPairs_sorted {l : List ℕ} (hl : l.Pairwise (· < ·))
    {i j : ℕ} (h : (i, j) ∈ intraPairs l) : i ∈ l ∧ j ∈ l ∧ i < j := by
  induction l with
  | nil => simp [intraPairs] at h
  | cons a t ih =>
    rw [intraPairs, List.mem_append] at h
    rcases h with h | h
    · rw [List.mem_map] at h
      obtain ⟨j0, hj0, hpair⟩ := h
      obtain ⟨hi, hj⟩ := Prod.mk.injEq .. ▸ hpair
      subst hi
      subst hj
      exact ⟨List.mem_cons_self .., List.mem_cons_of_mem _ hj0,
        (List.pairwise_cons.mp hl).1 _ hj0⟩
    · obtain ⟨hi, hj, hij⟩ := ih (List.pairwise_cons.mp hl).2 h
      exact ⟨List.mem_cons_of_mem _ hi, List.mem_cons_of_mem _ hj, hij⟩

theorem intraPairs_complete {l : List ℕ} (hl : l.Pairwise (· < ·))
    {i j : ℕ} (hi : i ∈ l) (hj : j ∈ l) (hij : i < j) :
    (i, j) ∈ intraPairs l := by
  induction l with
  | nil => simp at hi
  | cons a t ih =>
    rw [intraPairs, List.mem_append]
    rcases List.mem_cons.mp hi with hia | hit
    · subst hia
      rcases List.mem_cons.mp hj with hja | hjt
      · exact absurd hja (by omega)
      · exact Or.inl (List.mem_map.mpr ⟨j, hjt, rfl⟩)
    · rcases List.mem_cons.mp hj with hja | hjt
      · exfalso
        subst hja
        have := (List.pairwise_cons.mp hl).1 _ hit
        omega
      · exact Or.inr (ih (List.pairwise_cons.mp hl).2 hit hjt)

theorem mem_interPairs {cur nb : List ℕ} {i j : ℕ} :
    (i, j) ∈ interPairs cur nb ↔ i ∈ cur ∧ j ∈ nb ∧ i < j := by
  simp only [interPairs, List.mem_flatMap, List.mem_map, List.mem_filter,
    decide_eq_true_eq]
  constructor
  · rintro ⟨i0, hi0, j0, ⟨hj0, hlt⟩, hpair⟩
    obtain ⟨hi, hj⟩ := Prod.mk.injEq .. ▸ hpair
    subst hi
    subst hj
    exact ⟨hi0, hj0, hlt⟩
  · rintro ⟨hi, hj, hij⟩
    exact ⟨i, hi, j, ⟨hj, hij⟩, rfl⟩

theorem bucket_pairwise (c : ℤ) (pos : List (ℚ × ℚ)) (k : ℤ × ℤ) :
    (bucketOf (buildGrid c pos) k).Pairwise (· < ·) := by
  rw [bucketOf_buildGrid]
  exact List.Pairwise.sublist (List.filter_sublist _) (List.pairwise_lt_range _)

theorem mem_bucket_iff (c : ℤ) (pos : List (ℚ × ℚ)) (k : ℤ × ℤ) (i : ℕ) :
    i ∈ bucketOf (buildGrid c pos) k ↔ i < pos.length ∧ keyAt c pos i = k := by
  rw [bucketOf_buildGrid]
  simp [List.mem_filter, List.mem_range]

theorem scanPairs_sound {c : ℤ} {pos : List (ℚ × ℚ)} {i j : ℕ}
    (h : (i, j) ∈ scanPairs (buildGrid c pos)) :
    i < j ∧ i < pos.length ∧ j < pos.length := by
  rw [scanPairs, List.mem_flatMap] at h
  obtain ⟨k, _, hk⟩ := h
  rw [cellScanPairs, List.mem_append] at hk
  rcases hk with hk | hk
  · obtain ⟨hi, hj, hij⟩ := mem_intraPairs_sorted (bucket_pairwise c pos k) hk
    rw [mem_bucket_iff] at hi hj
    exact ⟨hij, hi.1, hj.1⟩
  · rw [List.mem_flatMap] at hk
    obtain ⟨d, _, hd⟩ := hk
    by_cases hnk : hasKey (buildGrid c pos) (k.1 + d.1, k.2 + d.2) = true
    · rw [if_pos hnk, mem_interPairs, mem_bucket_iff, mem_bucket_iff] at hd
      exact ⟨hd.2.2, hd.1.1, hd.2.1.1⟩
    · rw [if_neg hnk] at hd
      simp at hd

theorem mem_neighborOffsets {a b : ℤ} (h1 : -1 ≤ a) (h2 : a ≤ 1)
    (h3 : -1 ≤ b) (h4 : b ≤ 1) (h5 : ¬(a = 0 ∧ b = 0)) :
    (a, b) ∈ neighborOffsets := by
  have ha : a = -1 ∨ a = 0 ∨ a = 1 := by omega
  have hb : b = -1 ∨ b = 0 ∨ b = 1 := by omega
  rcases ha with rfl | rfl | rfl <;> rcases hb with rfl | rfl | rfl <;>
    first
      | exact absurd (⟨rfl, rfl⟩ : (0 : ℤ) = 0 ∧ (0 : ℤ) = 0) h5
      | decide

theorem scanPairs_complete {c : ℤ} {pos : List (ℚ × ℚ)} {i j : ℕ}
    (hi : i < pos.length) (hj : j < pos.length) (hij : i < j)
    (hadj1 : |(keyAt c pos i).1 - (keyAt c pos j).1| ≤ 1)
    (hadj2 : |(keyAt c pos i).2 - (keyAt c pos j).2| ≤ 1) :
    (i, j) ∈ scanPairs (buildGrid c pos) := by
  set g := buildGrid c pos with hg
  have hkinkeys : keyAt c pos i ∈ g.map Prod.fst := by
    rw [mem_keys_iff_hasKey, hg, hasKey_buildGrid]
    exact ⟨i, hi, rfl⟩
  have hjhas : hasKey g (keyAt c pos j) = true := by
    rw [hg, hasKey_buildGrid]
    exact ⟨j, hj, rfl⟩
  have hibucket : i ∈ bucketOf g (keyAt c pos i) :=
    (mem_bucket_iff c pos _ i).mpr ⟨hi, rfl⟩
  have hjbucket : j ∈ bucketOf g (keyAt c pos j) :=
    (mem_bucket_iff c pos _ j).mpr ⟨hj, rfl⟩
  rw [scanPairs, List.mem_flatMap]
  refine ⟨keyAt c pos i, hkinkeys, ?_⟩
  rw [cellScanPairs, List.mem_append]
  by_cases hkk : keyAt c pos i = keyAt c pos j
  · left
    exact intraPairs_complete (bucket_pairwise c pos _) hibucket
      (hkk ▸ hjbucket) hij
  · right
    rw [List.mem_flatMap]
    rw [abs_le] at hadj1 hadj2
    refine ⟨((keyAt c pos j).1 - (keyAt c pos i).1,
      (keyAt c pos j).2 - (keyAt c pos i).2),
      mem_neighborOffsets (by omega) (by omega) (by omega) (by omega) ?_, ?_⟩
    · rintro ⟨ha, hb⟩
      exact hkk (Prod.ext (by omega) (by omega))
    · have hnk : ((keyAt c pos i).1 + ((keyAt c pos j).1 - (keyAt c pos i).1),
          (keyAt c pos i).2 + ((keyAt c pos j).2 - (keyAt c pos i).2)) =
          keyAt c pos j := by
        rw [Prod.ext_iff]
        constructor <;> ring
      rw [hnk, if_pos hjhas, mem_interPairs]
      exact ⟨hibucket, hjbucket, hij⟩

theorem collide_abs_lt {w : World} {i j : ℕ}
    (hrad : ∀ n, 0 ≤ w.radius.getD n 0)
    (hcol : collidesB w i j = true) :
    |(w.pos.getD i (0, 0)).1 - (w.pos.getD j (0, 0)).1| < radiusSum w i j ∧
    |(w.pos.getD i (0, 0)).2 - (w.pos.getD j (0, 0)).2| < radiusSum w i j := by
  rw [collidesB, decide_eq_true_eq] at hcol
  simp only [dist2] at hcol
  have hrs : 0 ≤ radiusSum w i j := add_nonneg (hrad i) (hrad j)
  set x1 := (w.pos.getD i (0, 0)).1
  set y1 := (w.pos.getD i (0, 0)).2
  set x2 := (w.pos.getD j (0, 0)).1
  set y2 := (w.pos.getD j (0, 0)).2
  constructor
  · by_contra hcon
    push_neg at hcon
    have h1 : radiusSum w i j * radiusSum w i j ≤ |x1 - x2| * |x1 - x2| :=
      mul_le_mul hcon hcon hrs (abs_nonneg _)
    rw [abs_mul_abs_self] at h1
    nlinarith [sq_nonneg (y2 - y1)]
  · by_contra hcon
    push_neg at hcon
    have h1 : radiusSum w i j * radiusSum w i j ≤ |y1 - y2| * |y1 - y2| :=
      mul_le_mul hcon hcon hrs (abs_nonneg _)
    rw [abs_mul_abs_self] at h1
    nlinarith [sq_nonneg (x2 - x1)]

/-- C1: with every pairwise radius sum at most one cell width, the set of
pairs the grid scan tests as colliding is exactly the set the brute-force
all-pairs oracle finds. -/
theorem grid_scan_eq_bruteforce (c : ℤ) (w : World) (hc : 0 < c)
    (hrad : ∀ n, 0 ≤ w.radius.getD n 0)
    (hcell : ∀ i j, radiusSum w i j ≤ (c : ℚ)) :
    ∀ p : ℕ × ℕ, p ∈ testedCollidingPairs c w ↔ p ∈ bruteCollidingPairs w := by
  rintro ⟨i, j⟩
  rw [testedCollidingPairs, bruteCollidingPairs, List.mem_filter,
    List.mem_filter, worldGrid]
  constructor
  · rintro ⟨hscan, hcol⟩
    obtain ⟨hij, hi, hj⟩ := scanPairs_sound hscan
    exact ⟨intraPairs_complete (List.pairwise_lt_range _)
      (List.mem_range.mpr hi) (List.mem_range.mpr hj) hij, hcol⟩
  · rintro ⟨hbrute, hcol⟩
    obtain ⟨hi, hj, hij⟩ :=
      mem_intraPairs_sorted (List.pairwise_lt_range _) hbrute
    rw [List.mem_range] at hi hj
    obtain ⟨hx, hy⟩ := collide_abs_lt hrad hcol
    have hxc : |(w.pos.getD i (0, 0)).1 - (w.pos.getD j (0, 0)).1| < (c : ℚ) :=
      lt_of_lt_of_le hx (hcell i j)
    have hyc : |(w.pos.getD i (0, 0)).2 - (w.pos.getD j (0, 0)).2| < (c : ℚ) :=
      lt_of_lt_of_le hy (hcell i j)
    refine ⟨scanPairs_complete hi hj hij ?_ ?_, hcol⟩
    · simp only [keyAt, computeCellKeyC]
      exact cellCoord_adjacent hc hxc
    · simp only [keyAt, computeCellKeyC]
      exact cellCoord_adjacent hc hyc

theorem resolvePair_preserves_non_velocity (f : ℚ → ℚ) (E : ℚ) (w : World)
    (i j : ℕ) : (resolvePair f E w i j).pos = w.pos ∧
      (resolvePair f E w i j).acc = w.acc ∧
      (resolvePair f E w i j).radius = w.radius := by
  rw [resolvePair]
  by_cases h : collidesB w i j = true <;> simp [h]

theorem foldl_resolvePair_preserves_non_velocity (f : ℚ → ℚ) (E : ℚ)
    (l : List (ℕ × ℕ)) : ∀ w : World,
    ((l.foldl (fun w p => resolvePair f E w p.1 p.2) w).pos = w.pos ∧
     (l.foldl (fun w p => resolvePair f E w p.1 p.2) w).acc = w.acc ∧
     (l.foldl (fun w p => resolvePair f E w p.1 p.2) w).radius = w.radius) := by
  induction l with
  | nil => intro w; exact ⟨rfl, rfl, rfl⟩
  | cons p t ih =>
    intro w
    obtain ⟨h1, h2, h3⟩ := ih (resolvePair f E w p.1 p.2)
    obtain ⟨g1, g2, g3⟩ := resolvePair_preserves_non_velocity f E w p.1 p.2
    rw [List.foldl_cons]
    exact ⟨h1.trans g1, h2.trans g2, h3.trans g3⟩

theorem relVelN_applyImpulse (E : ℚ) (n v1 v2 : ℚ × ℚ)
    (hn : n.1 * n.1 + n.2 * n.2 = 1) :
    relVelN n (applyImpulse E n v1 v2).1 (applyImpulse E n v1 v2).2 =
      relVelN n v1 v2 * (2 * E - 1) := by
  simp only [applyImpulse, relVelN]
  linear_combination
    (-2 * ((v1.1 - v2.1) * n.1 + (v1.2 - v2.2) * n.2) * (1 - E)) * hn

theorem applyImpulse_sum (E : ℚ) (n v1 v2 : ℚ × ℚ) :
    (applyImpulse E n v1 v2).1.1 + (applyImpulse E n v1 v2).2.1 =
        v1.1 + v2.1 ∧
      (applyImpulse E n v1 v2).1.2 + (applyImpulse E n v1 v2).2.2 =
        v1.2 + v2.2 := by
  constructor <;> simp only [applyImpulse] <;> ring

theorem getD_set_self {α : Type} [Inhabited α] (l : List α) (i : ℕ) (a d : α)
    (h : i < l.length) : (l.set i a).getD i d = a := by
  rw [List.getD_eq_getElem?_getD, List.getElem?_set_self h]
  rfl

theorem getD_set_ne {α : Type} [Inhabited α] (l : List α) (i j : ℕ) (a d : α)
    (h : i ≠ j) : (l.set i a).getD j d = l.getD j d := by
  rw [List.getD_eq_getElem?_getD, List.getElem?_set_ne h,
    List.getD_eq_getElem?_getD]

theorem daxpy_getD (a : ℚ) (x y : List ℚ) (k : ℕ) (hx : k < x.length)
    (hy : k < y.length) :
    (daxpy a x y).getD k 0 = y.getD k 0 + a * x.getD k 0 := by
  have hk : k < (daxpy a x y).length := by
    rw [daxpy, List.length_zipWith]
    omega
  simp only [List.getD_eq_getElem?_getD, List.getElem?_eq_getElem hk,
    List.getElem?_eq_getElem hx, List.getElem?_eq_getElem hy,
    Option.getD_some]
  simp only [daxpy, List.getElem_zipWith]

theorem chunkStart_closed (M T : ℕ) :
    ∀ t, chunkStart M T t = t * (M / T) + min t (M % T) := by
  intro t
  induction t with
  | zero => simp [chunkStart]
  | succ t ih =>
    have hmul : (t + 1) * (M / T) = t * (M / T) + M / T := by ring
    rw [chunkStart, ih, chunkCount, cellsPerThread, extraCells, hmul]
    by_cases h : t < M % T
    · rw [if_pos h, min_eq_left h.le, min_eq_left h]
      generalize t * (M / T) = A
      omega
    · rw [if_neg h, min_eq_right (not_lt.mp h), min_eq_right (by omega)]
      generalize t * (M / T) = A
      omega

theorem chunkStart_total (M T : ℕ) (hT : 1 ≤ T) : chunkStart M T T = M := by
  rw [chunkStart_closed, min_eq_right (Nat.mod_lt M hT).le]
  exact Nat.div_add_mod M T

theorem chunkStart_mono (M T : ℕ) {m n : ℕ} (h : m ≤ n) :
    chunkStart M T m ≤ chunkStart M T n := by
  induction h with
  | refl => exact le_refl _
  | step h2 ih => exact le_trans ih (Nat.le_add_right _ _)

theorem exists_chunk (M T : ℕ) :
    ∀ n k, k < chunkStart M T n →
      ∃ t, t < n ∧ chunkStart M T t ≤ k ∧ k < chunkStart M T (t + 1) := by
  intro n
  induction n with
  | zero => simp [chunkStart]
  | succ n ih =>
    intro k hk
    by_cases h : k < chunkStart M T n
    · obtain ⟨t, ht, h1, h2⟩ := ih k h
      exact ⟨t, Nat.lt_succ_of_lt ht, h1, h2⟩
    · exact ⟨n, Nat.lt_succ_self n, not_lt.mp h, hk⟩

/-! ## Claim theorems -/

/-- C2 (amended): with a unit contact normal, `ENTROPY = 0` exactly negates
the relative velocity along the normal; for `0 < ENTROPY < 1` the magnitude
strictly decreases whenever the pre-collision relative normal velocity is
nonzero (at zero it stays zero). -/
theorem impulse_normal_velocity_reversal (E : ℚ) (n v1 v2 : ℚ × ℚ)
    (hn : n.1 * n.1 + n.2 * n.2 = 1) :
    (E = 0 → relVelN n (applyImpulse E n v1 v2).1 (applyImpulse E n v1 v2).2
      = -relVelN n v1 v2) ∧
    (0 < E → E < 1 → relVelN n v1 v2 ≠ 0 →
      |relVelN n (applyImpulse E n v1 v2).1 (applyImpulse E n v1 v2).2|
        < |relVelN n v1 v2|) := by
  constructor
  · intro hE
    rw [relVelN_applyImpulse E n v1 v2 hn, hE]
    ring
  · intro hE0 hE1 hr
    rw [relVelN_applyImpulse E n v1 v2 hn, abs_mul]
    have h1 : |2 * E - 1| < 1 := by
      rw [abs_lt]
      constructor <;> linarith
    have h2 : 0 < |relVelN n v1 v2| := abs_pos.mpr hr
    calc |relVelN n v1 v2| * |2 * E - 1|
        < |relVelN n v1 v2| * 1 := mul_lt_mul_of_pos_left h1 h2
      _ = |relVelN n v1 v2| := mul_one _

theorem impulse_normal_velocity_reversal_witness :
    ((1 : ℚ), (0 : ℚ)).1 * ((1 : ℚ), (0 : ℚ)).1 +
        ((1 : ℚ), (0 : ℚ)).2 * ((1 : ℚ), (0 : ℚ)).2 = 1 ∧
    (((1 : ℚ)/2 : ℚ) = 0 →
      relVelN (1, 0) (applyImpulse (1/2) (1, 0) (1, 0) (-1, 0)).1
        (applyImpulse (1/2) (1, 0) (1, 0) (-1, 0)).2
        = -relVelN (1, 0) (1, 0) (-1, 0)) ∧
    (0 < (1/2 : ℚ) → (1/2 : ℚ) < 1 → relVelN (1, 0) (1, 0) (-1, 0) ≠ 0 →
      |relVelN (1, 0) (applyImpulse (1/2) (1, 0) (1, 0) (-1, 0)).1
        (applyImpulse (1/2) (1, 0) (1, 0) (-1, 0)).2|
        < |relVelN (1, 0) (1, 0) (-1, 0)|) :=
  ⟨by norm_num,
   (impulse_normal_velocity_reversal (1/2) (1, 0) (1, 0) (-1, 0)
     (by norm_num)).1,
   (impulse_normal_velocity_reversal (1/2) (1, 0) (1, 0) (-1, 0)
     (by norm_num)).2⟩

/-- C2 counterexample: an overlapping pair with equal velocities is a
colliding pair with zero relative normal velocity; with `ENTROPY = 1/2` the
post-resolution magnitude equals the pre-resolution magnitude (both zero),
so it does not strictly decrease. -/
theorem entropy_strict_decrease_fails :
    collidesB ⟨[(0, 0), (3/2, 0)], [(1, 0), (1, 0)], [(0, 0), (0, 0)],
      [1, 1]⟩ 0 1 = true ∧
    (0 : ℚ) < 1/2 ∧ (1/2 : ℚ) < 1 ∧
    ¬ (|relVelN (1, 0) (applyImpulse (1/2) (1, 0) (1, 0) (1, 0)).1
        (applyImpulse (1/2) (1, 0) (1, 0) (1, 0)).2|
      < |relVelN (1, 0) ((1 : ℚ), (0 : ℚ)) ((1 : ℚ), (0 : ℚ))|) := by
  refine ⟨?_, by norm_num, by norm_num, ?_⟩
  · rw [collidesB, decide_eq_true_eq, dist2, radiusSum]
    norm_num
  · rw [applyImpulse, relVelN, relVelN]
    norm_num

/-- C9: a sequential resolver pass over the grid snapshot leaves positions,
accelerations and radii unchanged; only velocities are written. -/
theorem resolver_pass_preserves_non_velocity (f : ℚ → ℚ) (E : ℚ) (c : ℤ)
    (w : World) :
    (resolvePass f E c w).pos = w.pos ∧ (resolvePass f E c w).acc = w.acc ∧
    (resolvePass f E c w).radius = w.radius :=
  foldl_resolvePair_preserves_non_velocity f E _ w

theorem getD_set_pair (l : List (ℚ × ℚ)) (i j : ℕ) (a b : ℚ × ℚ)
    (hij : i ≠ j) (hi : i < l.length) (hj : j < l.length) :
    ((l.set i a).set j b).getD i (0, 0) = a ∧
    ((l.set i a).set j b).getD j (0, 0) = b := by
  constructor
  · rw [getD_set_ne _ _ _ _ _ (Ne.symm hij), getD_set_self _ _ _ _ hi]
  · exact getD_set_self _ _ _ _ (by rw [List.length_set]; exact hj)

/-- C10: one pair resolution step preserves the componentwise sum of the two
particles' velocities: what is subtracted from `i` is exactly what is added
to `j`, for any entropy and any (possibly degenerate) normal. -/
theorem resolvePair_conserves_momentum (f : ℚ → ℚ) (E : ℚ) (w : World)
    (i j : ℕ) (hij : i ≠ j) (hi : i < w.vel.length) (hj : j < w.vel.length) :
    ((resolvePair f E w i j).vel.getD i (0, 0)).1 +
        ((resolvePair f E w i j).vel.getD j (0, 0)).1 =
      (w.vel.getD i (0, 0)).1 + (w.vel.getD j (0, 0)).1 ∧
    ((resolvePair f E w i j).vel.getD i (0, 0)).2 +
        ((resolvePair f E w i j).vel.getD j (0, 0)).2 =
      (w.vel.getD i (0, 0)).2 + (w.vel.getD j (0, 0)).2 := by
  rw [resolvePair]
  by_cases h : collidesB w i j = true
  · simp only [h, if_true]
    rw [(getD_set_pair w.vel i j _ _ hij hi hj).1,
      (getD_set_pair w.vel i j _ _ hij hi hj).2]
    exact applyImpulse_sum E _ _ _
  · simp only [h, if_false]
    exact ⟨rfl, rfl⟩

/-- C4 counterexample: at position `(-5, 0)` the code's truncation-based
key is `(0, 0)` while the spec's floor-based key is `(-1, 0)`. -/
theorem computeCellKey_floor_counterexample :
    computeCellKey (-5) 0 = (0, 0) ∧ cellKeySpec CELL_SIZE (-5) 0 = (-1, 0) ∧
    computeCellKey (-5) 0 ≠ cellKeySpec CELL_SIZE (-5) 0 := by
  have ht1 : truncInt (-5) = -5 := by
    rw [truncInt, if_neg (by norm_num)]
    norm_num
  have ht0 : truncInt 0 = 0 := by
    rw [truncInt, if_pos le_rfl]
    norm_num
  have hk : computeCellKey (-5) 0 = (0, 0) := by
    rw [computeCellKey, computeCellKeyC, cellCoord, cellCoord, ht1, ht0,
      CELL_SIZE]
    decide
  have hs : cellKeySpec CELL_SIZE (-5) 0 = (-1, 0) := by
    rw [cellKeySpec, CELL_SIZE, Prod.ext_iff]
    norm_num
  refine ⟨hk, hs, ?_⟩
  rw [hk, hs]
  decide

/-- C4 (amended): for non-negative coordinates the computed cell key equals
the spec's floor-based key `(floor(x / cellSize), floor(y / cellSize))`;
for negative coordinates the code truncates toward zero instead. -/
theorem computeCellKey_nonneg_eq_floor (c : ℤ) (x y : ℚ) (hc : 0 < c)
    (hx : 0 ≤ x) (hy : 0 ≤ y) :
    computeCellKeyC c x y = cellKeySpec c x y := by
  rw [computeCellKeyC, cellKeySpec, cellCoord_of_nonneg hc hx,
    cellCoord_of_nonneg hc hy]

theorem computeCellKey_nonneg_eq_floor_witness :
    (0 : ℤ) < 10 ∧ (0 : ℚ) ≤ 3/2 ∧ (0 : ℚ) ≤ 0 ∧
    computeCellKeyC 10 (3/2) 0 = cellKeySpec 10 (3/2) 0 :=
  ⟨by decide, by norm_num, le_rfl,
   computeCellKey_nonneg_eq_floor 10 (3/2) 0 (by decide) (by norm_num) le_rfl⟩

/-- C5 counterexample: the frame's `dt` reaches the daxpy integration
unmodified; at `dt = -1` it differs from the spec's clamped value, and the
integrator moves the position backward instead of the frame aborting. -/
theorem dt_not_clamped :
    frameDt (-1) ≠ clampDtSpec (-1) ∧
    (integrateFrame (-1) ⟨[0], [1], [0]⟩).positions = [-1] := by
  constructor
  · rw [frameDt, clampDtSpec]
    norm_num
  · rw [integrateFrame, stepVelocities, stepPositions, frameDt]
    show daxpy (-1) [1] [0] = [-1]
    rw [daxpy]
    norm_num

/-- C5 (amended): the elapsed `dt` is handed to the integrator without any
clamp or NaN/sign check; a negative `dt` is integrated like any other
value rather than aborting the frame. -/
theorem negative_dt_is_integrated (dt : ℚ) (s : SimState) (k : ℕ)
    (_hdt : dt < 0) (hp : k < s.positions.length)
    (hv : k < s.velocities.length) :
    frameDt dt = dt ∧
    (integrateFrame dt s).positions.getD k 0 =
      s.positions.getD k 0 + dt * s.velocities.getD k 0 := by
  refine ⟨rfl, ?_⟩
  rw [integrateFrame, stepVelocities, stepPositions]
  exact daxpy_getD dt s.velocities s.positions k hv hp

theorem negative_dt_is_integrated_witness :
    (-2 : ℚ) < 0 ∧ 0 < ([5] : List ℚ).length ∧ 0 < ([3] : List ℚ).length ∧
    (frameDt (-2) = -2 ∧
      (integrateFrame (-2) ⟨[5], [3], [0]⟩).positions.getD 0 0 =
        ([5] : List ℚ).getD 0 0 + (-2) * ([3] : List ℚ).getD 0 0) :=
  ⟨by norm_num, by simp, by simp,
   negative_dt_is_integrated (-2) ⟨[5], [3], [0]⟩ 0 (by norm_num)
     (by simp) (by simp)⟩

/-- C8: the integrator advances every position with the particle's
pre-update velocity (the first daxpy call runs before velocities change),
and only afterwards advances velocities with the accelerations. -/
theorem integrator_updates_position_with_old_velocity (dt : ℚ) (s : SimState)
    (k : ℕ) (hp : k < s.positions.length) (hv : k < s.velocities.length)
    (ha : k < s.accelerations.length) :
    (integrateFrame dt s).positions.getD k 0 =
        s.positions.getD k 0 + dt * s.velocities.getD k 0 ∧
    (integrateFrame dt s).velocities.getD k 0 =
        s.velocities.getD k 0 + dt * s.accelerations.getD k 0 := by
  constructor
  · rw [integrateFrame, stepVelocities, stepPositions]
    exact daxpy_getD dt s.velocities s.positions k hv hp
  · rw [integrateFrame, stepVelocities, stepPositions]
    exact daxpy_getD dt s.accelerations s.velocities k ha hv

theorem integrator_order_witness :
    0 < ([7] : List ℚ).length ∧ 0 < ([2] : List ℚ).length ∧
    0 < ([4] : List ℚ).length ∧
    ((integrateFrame 3 ⟨[7], [2], [4]⟩).positions.getD 0 0 =
        ([7] : List ℚ).getD 0 0 + 3 * ([2] : List ℚ).getD 0 0 ∧
      (integrateFrame 3 ⟨[7], [2], [4]⟩).velocities.getD 0 0 =
        ([2] : List ℚ).getD 0 0 + 3 * ([4] : List ℚ).getD 0 0) :=
  ⟨by simp, by simp, by simp,
   integrator_updates_position_with_old_velocity 3 ⟨[7], [2], [4]⟩ 0
     (by simp) (by simp) (by simp)⟩

/-- C7: the static chunk partition: thread ranges are contiguous, start at
0, end at the cell count, cover each cell exactly once, and have size
`M / T` or `M / T + 1`, the larger going exactly to the first `M mod T`
threads. -/
theorem thread_partition_correct (M T : ℕ) (hT : 1 ≤ T) :
    chunkStart M T 0 = 0 ∧
    chunkStart M T T = M ∧
    (∀ t, chunkStart M T (t + 1) = chunkStart M T t + chunkCount M T t) ∧
    (∀ k, k < M → ∃! t, t < T ∧ chunkStart M T t ≤ k ∧
      k < chunkStart M T t + chunkCount M T t) ∧
    (∀ t, t < T → chunkCount M T t = M / T ∨ chunkCount M T t = M / T + 1) ∧
    (∀ t, t < T → (chunkCount M T t = M / T + 1 ↔ t < M % T)) := by
  have e : ∀ u, chunkStart M T (u + 1) = chunkStart M T u + chunkCount M T u :=
    fun u => rfl
  refine ⟨rfl, chunkStart_total M T hT, e, ?_, ?_, ?_⟩
  · intro k hk
    have hk2 : k < chunkStart M T T := by
      rw [chunkStart_total M T hT]
      exact hk
    obtain ⟨t, ht, h1, h2⟩ := exists_chunk M T T k hk2
    rw [e t] at h2
    refine ⟨t, ⟨ht, h1, h2⟩, ?_⟩
    rintro t2 ⟨ht2, g1, g2⟩
    by_contra hne
    rcases Nat.lt_or_ge t2 t with hlt | hge
    · have hmono : chunkStart M T (t2 + 1) ≤ chunkStart M T t :=
        chunkStart_mono M T hlt
      rw [e t2] at hmono
      omega
    · have hlt2 : t < t2 := by omega
      have hmono : chunkStart M T (t + 1) ≤ chunkStart M T t2 :=
        chunkStart_mono M T hlt2
      rw [e t] at hmono
      omega
  · intro t ht
    rw [chunkCount, cellsPerThread]
    by_cases h : t < extraCells M T
    · rw [if_pos h]
      right
      rfl
    · rw [if_neg h]
      left
      rfl
  · intro t ht
    rw [chunkCount, cellsPerThread, extraCells]
    by_cases h : t < M % T
    · rw [if_pos h]
      simp [h]
    · rw [if_neg h]
      simp [h]

theorem thread_partition_correct_witness :
    1 ≤ 2 ∧
    (chunkStart 5 2 0 = 0 ∧
      chunkStart 5 2 2 = 5 ∧
      (∀ t, chunkStart 5 2 (t + 1) = chunkStart 5 2 t + chunkCount 5 2 t) ∧
      (∀ k, k < 5 → ∃! t, t < 2 ∧ chunkStart 5 2 t ≤ k ∧
        k < chunkStart 5 2 t + chunkCount 5 2 t) ∧
      (∀ t, t < 2 → chunkCount 5 2 t = 5 / 2 ∨ chunkCount 5 2 t = 5 / 2 + 1) ∧
      (∀ t, t < 2 → (chunkCount 5 2 t = 5 / 2 + 1 ↔ t < 5 % 2))) :=
  ⟨by decide, thread_partition_correct 5 2 (by decide)⟩

theorem grid_scan_eq_bruteforce_witness :
    (0 : ℤ) < CELL_SIZE ∧ (∀ n, 0 ≤ wScenario.radius.getD n 0) ∧
    (∀ i j, radiusSum wScenario i j ≤ (CELL_SIZE : ℚ)) ∧
    (∀ p : ℕ × ℕ, p ∈ testedCollidingPairs CELL_SIZE wScenario ↔
      p ∈ bruteCollidingPairs wScenario) := by
  have hr1 : ∀ n, wScenario.radius.getD n 0 = 0 ∨
      wScenario.radius.getD n 0 = 1 := by
    intro n
    rcases n with _ | _ | n <;> simp [wScenario]
  have hrad : ∀ n, 0 ≤ wScenario.radius.getD n 0 := by
    intro n
    rcases hr1 n with h | h <;> rw [h] <;> norm_num
  have hcell : ∀ i j, radiusSum wScenario i j ≤ (CELL_SIZE : ℚ) := by
    intro i j
    rw [radiusSum, CELL_SIZE]
    rcases hr1 i with h | h <;> rcases hr1 j with h2 | h2 <;>
      rw [h, h2] <;> norm_num
  exact ⟨by decide, hrad, hcell,
    grid_scan_eq_bruteforce CELL_SIZE wScenario (by decide) hrad hcell⟩

theorem cellCoord_ten_zero : cellCoord 10 0 = 0 := by
  rw [cellCoord_of_nonneg (by decide) le_rfl]
  norm_num

theorem cellCoord_ten_threehalf : cellCoord 10 (3/2) = 0 := by
  rw [cellCoord_of_nonneg (by decide) (by norm_num)]
  norm_num

theorem grid_wScenario : worldGrid CELL_SIZE wScenario = [((0, 0), [0, 1])] := by
  rw [worldGrid, buildGrid]
  have hlen : wScenario.pos.length = 2 := by simp [wScenario]
  rw [hlen]
  have hr : List.range 2 = [0, 1] := by decide
  rw [hr]
  have k0 : keyAt CELL_SIZE wScenario.pos 0 = (0, 0) := by
    rw [keyAt]
    have hp : wScenario.pos.getD 0 (0, 0) = ((0 : ℚ), (0 : ℚ)) := by
      simp [wScenario]
    rw [hp, computeCellKeyC, CELL_SIZE, cellCoord_ten_zero]
  have k1 : keyAt CELL_SIZE wScenario.pos 1 = (0, 0) := by
    rw [keyAt]
    have hp : wScenario.pos.getD 1 (0, 0) = ((3/2 : ℚ), (0 : ℚ)) := by
      simp [wScenario]
    rw [hp, computeCellKeyC, CELL_SIZE, cellCoord_ten_threehalf,
      cellCoord_ten_zero]
  simp only [List.foldl_cons, List.foldl_nil, k0, k1]
  rw [gridInsert, gridInsert]
  simp

theorem collidesB_wScenario : collidesB wScenario 0 1 = true := by
  rw [collidesB, decide_eq_true_eq, dist2, radiusSum]
  norm_num [wScenario]

theorem scan_wScenario : scanPairs [(((0 : ℤ), (0 : ℤ)), [0, 1])] = [(0, 1)] := by
  decide

theorem tested_wScenario :
    testedCollidingPairs CELL_SIZE wScenario = [(0, 1)] := by
  rw [testedCollidingPairs, grid_wScenario, scan_wScenario]
  rw [List.filter_cons, List.filter_nil]
  simp [collidesB_wScenario]

theorem resolvePair_of_collides (f : ℚ → ℚ) (E : ℚ) (w : World) (i j : ℕ)
    (h : collidesB w i j = true) (g : ℚ × ℚ × ℚ)
    (hg : collisionGeom f ((w.pos.getD j (0, 0)).1 - (w.pos.getD i (0, 0)).1)
      ((w.pos.getD j (0, 0)).2 - (w.pos.getD i (0, 0)).2)
      (dist2 w i j) (radiusSum w i j) = g)
    (r : (ℚ × ℚ) × (ℚ × ℚ))
    (hr : applyImpulse E (g.2.1 / g.1, g.2.2 / g.1)
      (w.vel.getD i (0, 0)) (w.vel.getD j (0, 0)) = r) :
    resolvePair f E w i j =
      { w with vel := (w.vel.set i r.1).set j r.2 } := by
  subst hg
  subst hr
  rw [resolvePair, if_pos h]

theorem pass_wScenario (f : ℚ → ℚ) (hf : f (9/4) = 3/2) :
    (resolvePass f 0 CELL_SIZE wScenario).vel = [(-1, 0), (1, 0)] := by
  rw [resolvePass, grid_wScenario, scan_wScenario, List.foldl_cons,
    List.foldl_nil]
  have hd : dist2 wScenario 0 1 = 9/4 := by
    rw [dist2]
    norm_num [wScenario]
  have hgeom : collisionGeom f ((wScenario.pos.getD 1 (0, 0)).1 -
      (wScenario.pos.getD 0 (0, 0)).1) ((wScenario.pos.getD 1 (0, 0)).2 -
      (wScenario.pos.getD 0 (0, 0)).2) (dist2 wScenario 0 1)
      (radiusSum wScenario 0 1) = (3/2, 3/2, 0) := by
    rw [collisionGeom, hd, hf, if_neg (by norm_num)]
    norm_num [wScenario]
  have himp : applyImpulse 0 (((3 : ℚ)/2, (3 : ℚ)/2, (0 : ℚ)).2.1 /
        ((3 : ℚ)/2, (3 : ℚ)/2, (0 : ℚ)).1, ((3 : ℚ)/2, (3 : ℚ)/2, (0 : ℚ)).2.2 /
        ((3 : ℚ)/2, (3 : ℚ)/2, (0 : ℚ)).1)
        (wScenario.vel.getD 0 (0, 0)) (wScenario.vel.getD 1 (0, 0)) =
      ((-1, 0), (1, 0)) := by
    have hv0 : wScenario.vel.getD 0 (0, 0) = ((1 : ℚ), (0 : ℚ)) := by
      simp [wScenario]
    have hv1 : wScenario.vel.getD 1 (0, 0) = ((-1 : ℚ), (0 : ℚ)) := by
      simp [wScenario]
    rw [hv0, hv1, applyImpulse, relVelN]
    norm_num
  rw [resolvePair_of_collides f 0 wScenario 0 1 collidesB_wScenario _ hgeom
    _ himp]
  rw [show wScenario.vel = [((1 : ℚ), (0 : ℚ)), ((-1 : ℚ), (0 : ℚ))] from rfl]
  rfl

/-- C3: in the concrete scenario (radius-1 particles at `(0,0)` and
`(1.5,0)` with velocities `(1,0)` and `(-1,0)`, `ENTROPY = 0`, `dt = 0`),
the squared distance is `2.25 < 4`, the grid scan tests exactly the pair
`(0,1)` as colliding, the `dt = 0` integration leaves the state unchanged,
and one resolver pass produces velocities `(-1,0)` and `(1,0)`.  `sqrtFn`
is any model of `std::sqrt`, pinned at the one exact square root taken. -/
theorem concrete_two_particle_scenario (f : ℚ → ℚ) (hf : f (9/4) = 3/2) :
    dist2 wScenario 0 1 = 9/4 ∧
    radiusSum wScenario 0 1 * radiusSum wScenario 0 1 = 4 ∧
    collidesB wScenario 0 1 = true ∧
    testedCollidingPairs CELL_SIZE wScenario = [(0, 1)] ∧
    integrateFrame 0 sScenario = sScenario ∧
    (resolvePass f 0 CELL_SIZE wScenario).vel = [(-1, 0), (1, 0)] := by
  refine ⟨?_, ?_, collidesB_wScenario, tested_wScenario, ?_, pass_wScenario f hf⟩
  · rw [dist2]
    norm_num [wScenario]
  · rw [radiusSum]
    norm_num [wScenario]
  · rw [integrateFrame, stepVelocities, stepPositions, frameDt]
    norm_num [sScenario, daxpy]

theorem concrete_two_particle_scenario_witness :
    (fun q : ℚ => if q = 9/4 then (3/2 : ℚ) else 0) (9/4) = 3/2 ∧
    (dist2 wScenario 0 1 = 9/4 ∧
      radiusSum wScenario 0 1 * radiusSum wScenario 0 1 = 4 ∧
      collidesB wScenario 0 1 = true ∧
      testedCollidingPairs CELL_SIZE wScenario = [(0, 1)] ∧
      integrateFrame 0 sScenario = sScenario ∧
      (resolvePass (fun q : ℚ => if q = 9/4 then (3/2 : ℚ) else 0) 0
        CELL_SIZE wScenario).vel = [(-1, 0), (1, 0)]) :=
  ⟨by norm_num, concrete_two_particle_scenario
    (fun q : ℚ => if q = 9/4 then (3/2 : ℚ) else 0) (by norm_num)⟩

/-- C6: for coincident centers (and `sqrt 0 = 0`), the resolver never
divides by zero: when the radius sum is nonzero the degenerate branch
substitutes distance `0.1` and separation `(radiusSum, 0)` — so the only
divisor is the nonzero `1/10` — and both updated velocities are the
explicit rational values below (finite by construction); when the radius
sum is zero the pair fails the collision test and nothing is touched. -/
theorem degenerate_coincident_centers (f : ℚ → ℚ) (E : ℚ) (w : World)
    (i j : ℕ) (hpos : w.pos.getD i (0, 0) = w.pos.getD j (0, 0))
    (hf : f 0 = 0) (hij : i ≠ j) (hi : i < w.vel.length)
    (hj : j < w.vel.length) :
    (radiusSum w i j = 0 → resolvePair f E w i j = w) ∧
    (radiusSum w i j ≠ 0 →
      collisionGeom f 0 0 (dist2 w i j) (radiusSum w i j)
          = (1/10, radiusSum w i j, 0) ∧
      (1/10 : ℚ) ≠ 0 ∧
      (resolvePair f E w i j).vel.getD i (0, 0) =
        ((w.vel.getD i (0, 0)).1 -
          ((w.vel.getD i (0, 0)).1 - (w.vel.getD j (0, 0)).1) *
            (10 * radiusSum w i j) * (10 * radiusSum w i j) * (1 - E),
         (w.vel.getD i (0, 0)).2) ∧
      (resolvePair f E w i j).vel.getD j (0, 0) =
        ((w.vel.getD j (0, 0)).1 +
          ((w.vel.getD i (0, 0)).1 - (w.vel.getD j (0, 0)).1) *
            (10 * radiusSum w i j) * (10 * radiusSum w i j) * (1 - E),
         (w.vel.getD j (0, 0)).2)) := by
  have hd0 : dist2 w i j = 0 := by
    rw [dist2, hpos]
    ring
  constructor
  · intro hrs
    have hcol : collidesB w i j = false := by
      rw [collidesB, hd0, hrs]
      norm_num
    rw [resolvePair, hcol]
    simp
  · intro hrs
    have hcol : collidesB w i j = true := by
      rw [collidesB, decide_eq_true_eq, hd0]
      exact mul_self_pos.mpr hrs
    have hgeom0 : collisionGeom f 0 0 (dist2 w i j) (radiusSum w i j) =
        (1/10, radiusSum w i j, 0) := by
      rw [collisionGeom, hd0, hf, if_pos rfl]
    have hdx : (w.pos.getD j (0, 0)).1 - (w.pos.getD i (0, 0)).1 = 0 := by
      rw [hpos]
      ring
    have hdy : (w.pos.getD j (0, 0)).2 - (w.pos.getD i (0, 0)).2 = 0 := by
      rw [hpos]
      ring
    have hg : collisionGeom f
        ((w.pos.getD j (0, 0)).1 - (w.pos.getD i (0, 0)).1)
        ((w.pos.getD j (0, 0)).2 - (w.pos.getD i (0, 0)).2)
        (dist2 w i j) (radiusSum w i j) = (1/10, radiusSum w i j, 0) := by
      rw [hdx, hdy, hgeom0]
    have hres := resolvePair_of_collides f E w i j hcol _ hg _ rfl
    refine ⟨hgeom0, by norm_num, ?_, ?_⟩
    · rw [hres, (getD_set_pair w.vel i j _ _ hij hi hj).1, applyImpulse,
        relVelN, Prod.ext_iff]
      constructor
      · dsimp only
        ring
      · dsimp only
        ring
    · rw [hres, (getD_set_pair w.vel i j _ _ hij hi hj).2, applyImpulse,
        relVelN, Prod.ext_iff]
      constructor
      · dsimp only
        ring
      · dsimp only
        ring

theorem degenerate_coincident_centers_witness :
    wDegen.pos.getD 0 (0, 0) = wDegen.pos.getD 1 (0, 0) ∧
    (fun _ : ℚ => (0 : ℚ)) 0 = 0 ∧
    (0 : ℕ) ≠ 1 ∧ 0 < wDegen.vel.length ∧ 1 < wDegen.vel.length ∧
    ((radiusSum wDegen 0 1 = 0 →
        resolvePair (fun _ : ℚ => (0 : ℚ)) 0 wDegen 0 1 = wDegen) ∧
     (radiusSum wDegen 0 1 ≠ 0 →
        collisionGeom (fun _ : ℚ => (0 : ℚ)) 0 0 (dist2 wDegen 0 1)
            (radiusSum wDegen 0 1) = (1/10, radiusSum wDegen 0 1, 0) ∧
        (1/10 : ℚ) ≠ 0 ∧
        (resolvePair (fun _ : ℚ => (0 : ℚ)) 0 wDegen 0 1).vel.getD 0 (0, 0) =
          ((wDegen.vel.getD 0 (0, 0)).1 -
            ((wDegen.vel.getD 0 (0, 0)).1 - (wDegen.vel.getD 1 (0, 0)).1) *
              (10 * radiusSum wDegen 0 1) * (10 * radiusSum wDegen 0 1) *
                (1 - 0),
           (wDegen.vel.getD 0 (0, 0)).2) ∧
        (resolvePair (fun _ : ℚ => (0 : ℚ)) 0 wDegen 0 1).vel.getD 1 (0, 0) =
          ((wDegen.vel.getD 1 (0, 0)).1 +
            ((wDegen.vel.getD 0 (0, 0)).1 - (wDegen.vel.getD 1 (0, 0)).1) *
              (10 * radiusSum wDegen 0 1) * (10 * radiusSum wDegen 0 1) *
                (1 - 0),
           (wDegen.vel.getD 1 (0, 0)).2))) :=
  ⟨by simp [wDegen], rfl, by decide, by simp [wDegen], by simp [wDegen],
   degenerate_coincident_centers (fun _ : ℚ => (0 : ℚ)) 0 wDegen 0 1
     (by simp [wDegen]) rfl (by decide) (by simp [wDegen]) (by simp [wDegen])⟩

theorem resolvePair_conserves_momentum_witness :
    (0 : ℕ) ≠ 1 ∧ 0 < wScenario.vel.length ∧ 1 < wScenario.vel.length ∧
    (((resolvePair (fun _ : ℚ => (0 : ℚ)) (1/100) wScenario 0 1).vel.getD 0
          (0, 0)).1 +
        ((resolvePair (fun _ : ℚ => (0 : ℚ)) (1/100) wScenario 0 1).vel.getD 1
          (0, 0)).1 =
      (wScenario.vel.getD 0 (0, 0)).1 + (wScenario.vel.getD 1 (0, 0)).1 ∧
     ((resolvePair (fun _ : ℚ => (0 : ℚ)) (1/100) wScenario 0 1).vel.getD 0
          (0, 0)).2 +
        ((resolvePair (fun _ : ℚ => (0 : ℚ)) (1/100) wScenario 0 1).vel.getD 1
          (0, 0)).2 =
      (wScenario.vel.getD 0 (0, 0)).2 + (wScenario.vel.getD 1 (0, 0)).2) :=
  ⟨by decide, by simp [wScenario], by simp [wScenario],
   resolvePair_conserves_momentum (fun _ : ℚ => (0 : ℚ)) (1/100) wScenario 0 1
     (by decide) (by simp [wScenario]) (by simp [wScenario])⟩
